import Mathlib

/-!
Shallow embedding of the spotify-analyzer pipeline (src/app.py):
paginated track fetching, normalization into a flat track table,
popularity metrics, top-artist counting, and CSV export.

Python dictionaries coming from the upstream API are modelled as
structures whose fields are wrapped in `Option` when the corresponding
dictionary key may be absent; `item['track']` being JSON null is
modelled as `track = none`.  Computations that can raise a Python
exception (KeyError / IndexError) return `Except Unit`.
-/

namespace SpotifyAnalyzer

/-- Raw track dictionary inside one playlist item, as accessed by
`prepare_track_dataframe`: keys `name`, `artists` (list of artist names),
`album` (its `name`), `id`, `popularity`.  A `none` field models a missing
key (access raises KeyError); `artists = some []` models an empty artist
list (indexing `[0]` raises IndexError). -/
structure RawTrack where
  name : Option String
  artists : Option (List String)
  album : Option String
  id : Option String
  popularity : Option Nat
deriving DecidableEq

/-- One playlist item as returned by the paginated endpoint; `track = none`
models a JSON-null track (deleted / region-blocked entry). -/
structure RawTrackItem where
  track : Option RawTrack
deriving DecidableEq

/-- One flat row of the normalized track table. -/
structure TrackRecord where
  name : String
  artist : String
  album : String
  id : String
  popularity : Nat
deriving DecidableEq

/-- One page of the paginated `playlist_tracks` endpoint: its `items` and
the truthiness of its `next` cursor field. -/
structure TracksPage where
  items : List RawTrackItem
  next : Bool
deriving DecidableEq

/-- Loop of `get_playlist_tracks`: extend with the current page's items and
follow the `next` cursor while it is truthy.  The upstream is modelled as
the list of pages it would serve in order. -/
def fetchLoop : List TracksPage → List RawTrackItem
  | [] => []
  | p :: rest => p.items ++ (if p.next then fetchLoop rest else [])

/-- Embedding of `get_playlist_tracks` (src/app.py lines 204-214): fetch the
first page, then repeatedly follow the pagination cursor, accumulating all
items in arrival order. -/
def get_playlist_tracks (pages : List TracksPage) : List RawTrackItem :=
  fetchLoop pages

/-- Body of the `prepare_track_dataframe` loop for one non-null track:
`track['name']`, `track['artists'][0]['name']`, `track['album']['name']`,
`track['id']`, `track.get('popularity', 0)`.  Returns `none` when one of the
dictionary accesses would raise (missing key or empty artist list). -/
def recordOf (t : RawTrack) : Option TrackRecord :=
  match t.name, t.artists, t.album, t.id with
  | some nm, some (a :: _), some al, some tid =>
      some ⟨nm, a, al, tid, t.popularity.getD 0⟩
  | _, _, _, _ => none

/-- One iteration of `prepare_track_dataframe`: a falsy (null) track is
skipped (`ok none`), a well-formed track yields its record, and a
structurally malformed track raises (`error`). -/
def normalizeItem (item : RawTrackItem) : Except Unit (Option TrackRecord) :=
  match item.track with
  | none => Except.ok none
  | some t =>
    match recordOf t with
    | some r => Except.ok (some r)
    | none => Except.error ()

/-- Embedding of `prepare_track_dataframe` (src/app.py lines 217-231):
iterate over the items in order, skipping null tracks and appending a row
for each present track; a raised exception aborts the whole conversion. -/
def prepare_track_dataframe : List RawTrackItem → Except Unit (List TrackRecord)
  | [] => Except.ok []
  | item :: rest =>
    match normalizeItem item with
    | Except.error e => Except.error e
    | Except.ok none => prepare_track_dataframe rest
    | Except.ok (some r) =>
      match prepare_track_dataframe rest with
      | Except.error e => Except.error e
      | Except.ok rs => Except.ok (r :: rs)

/-- Access `df['popularity']` on the DataFrame built by
`prepare_track_dataframe`.  `pd.DataFrame([])` carries no columns at all, so
the access raises KeyError on the empty table; on a nonempty table it is the
popularity column. -/
def popularityColumn (table : List TrackRecord) : Except Unit (List Nat) :=
  match table with
  | [] => Except.error ()
  | _ => Except.ok (table.map (fun r => r.popularity))

/-- Insertion step of an ascending sort, used to model the order statistics
behind `Series.median`. -/
def insertAsc (x : Nat) : List Nat → List Nat
  | [] => [x]
  | y :: ys => if x ≤ y then x :: y :: ys else y :: insertAsc x ys

/-- Ascending sort of a column. -/
def sortAsc (l : List Nat) : List Nat := l.foldr insertAsc []

/-- Mean of a numeric column, as `Series.mean` computes it on a nonempty
integer column. -/
def seriesMean (l : List Nat) : ℚ := (l.sum : ℚ) / (l.length : ℚ)

/-- Median of a numeric column: middle order statistic, or the average of
the two middle ones for an even length. -/
def seriesMedian (l : List Nat) : ℚ :=
  let s := sortAsc l
  let n := s.length
  if n % 2 = 1 then (s.getD (n / 2) 0 : ℚ)
  else ((s.getD (n / 2 - 1) 0 : ℚ) + (s.getD (n / 2) 0 : ℚ)) / 2

/-- The four popularity statistics rendered by `display_metrics`. -/
structure PopularityMetrics where
  mean : ℚ
  median : ℚ
  min : Nat
  max : Nat
deriving DecidableEq

/-- Embedding of the popularity-statistics part of `display_metrics`
(src/app.py lines 279-286): it reads `df['popularity']` and computes
mean, median, min and max of that column. -/
def display_metrics_popularity (table : List TrackRecord) :
    Except Unit PopularityMetrics := do
  let col ← popularityColumn table
  match col with
  | [] => Except.error ()
  | c :: cs =>
    Except.ok ⟨seriesMean (c :: cs), seriesMedian (c :: cs),
      cs.foldl Nat.min c, cs.foldl Nat.max c⟩

/-- Accumulator loop for first-appearance deduplication: keep a value the
first time it is met, remembering the already-seen values. -/
def dedupFirstAux (seen : List String) : List String → List String
  | [] => []
  | a :: rest =>
    if a ∈ seen then dedupFirstAux seen rest
    else a :: dedupFirstAux (a :: seen) rest

/-- Unique values of a column in order of first appearance, as the hashtable
behind `Series.value_counts` enumerates them. -/
def dedupFirst (l : List String) : List String := dedupFirstAux [] l

/-- Recursion-by-filtering variant of first-appearance deduplication, used
as the handle for the counting proofs. -/
def dedupFirstRec : List String → List String
  | [] => []
  | a :: rest => a :: dedupFirstRec (rest.filter (fun b => decide ¬(b = a)))
termination_by l => l.length
decreasing_by
  simp only [List.length_cons]
  exact Nat.lt_succ_of_le (List.length_filter_le _ _)

/-- Number of occurrences of one artist name in a column (exact string
match). -/
def countArtist (col : List String) (a : String) : Nat :=
  (col.filter (fun b => decide (b = a))).length

/-- Stable descending insertion by count: the inserted pair goes before the
first kept pair whose count is not larger. -/
def insertByCount (x : String × Nat) :
    List (String × Nat) → List (String × Nat)
  | [] => [x]
  | y :: ys => if y.2 ≤ x.2 then x :: y :: ys else y :: insertByCount x ys

/-- Stable sort of (value, count) pairs by descending count; pairs of equal
count keep their relative order. -/
def sortCountsDesc (l : List (String × Nat)) : List (String × Nat) :=
  l.foldr insertByCount []

/-- Embedding of `Series.value_counts`: count each unique value of the
column, then order descending by count, ties in first-appearance order. -/
def value_counts (col : List String) : List (String × Nat) :=
  sortCountsDesc ((dedupFirst col).map (fun a => (a, countArtist col a)))

/-- The `df['artist']` column. -/
def artistColumn (table : List TrackRecord) : List String :=
  table.map (fun r => r.artist)

/-- The aggregator contract `top_artists(table, n)`:
`df['artist'].value_counts().head(n)`. -/
def top_artists (table : List TrackRecord) (n : Nat) : List (String × Nat) :=
  (value_counts (artistColumn table)).take n

/-- Embedding of the data behind `create_artists_plot` (src/app.py lines
245-256): `df['artist'].value_counts().head(10)`. -/
def create_artists_plot (table : List TrackRecord) : List (String × Nat) :=
  top_artists table 10

/-- Number of distinct artist names of the table. -/
def distinct_artist_count (table : List TrackRecord) : Nat :=
  (dedupFirst (artistColumn table)).length

/-- Upstream playlist object as read by `get_playlist_info`: `name`,
`owner.display_name`, `tracks.total`, optional `description` key, `images`
list of cover urls. -/
structure PlaylistData where
  name : String
  ownerDisplayName : String
  tracksTotal : Nat
  description : Option String
  images : List String
deriving DecidableEq

/-- The summary dictionary built by `get_playlist_info`. -/
structure PlaylistSummary where
  name : String
  owner : String
  total_tracks : Nat
  description : String
  image : Option String
deriving DecidableEq

/-- Embedding of `get_playlist_info` (src/app.py lines 188-201). -/
def get_playlist_info (p : PlaylistData) : PlaylistSummary :=
  { name := p.name
    owner := p.ownerDisplayName
    total_tracks := p.tracksTotal
    description := p.description.getD "No description"
    image := p.images.head? }

/-- Cursor consistency of an upstream page list: every page but the last
announces a next page and the last does not, so the fetch loop consumes
exactly this list. -/
def CursorConsistent : List TracksPage → Prop
  | [] => True
  | [p] => p.next = false
  | p :: q :: rest => p.next = true ∧ CursorConsistent (q :: rest)

instance instDecCursorConsistent :
    (l : List TracksPage) → Decidable (CursorConsistent l)
  | [] => inferInstanceAs (Decidable True)
  | [p] => inferInstanceAs (Decidable (p.next = false))
  | p :: q :: rest =>
    haveI : Decidable (CursorConsistent (q :: rest)) :=
      instDecCursorConsistent (q :: rest)
    inferInstanceAs (Decidable (p.next = true ∧ CursorConsistent (q :: rest)))

/-- A valid playlist: the upstream summary's reported track total equals the
number of playlist entries served across its cursor-consistent pages. -/
def ValidPlaylist (p : PlaylistData) (pages : List TracksPage) : Prop :=
  CursorConsistent pages ∧
    p.tracksTotal = ((pages.map TracksPage.items).flatten).length

/-- The characters of the `playlist/` path segment. -/
def playlistSeg : List Char := ['p', 'l', 'a', 'y', 'l', 'i', 's', 't', '/']

/-- Whether the `playlist/` segment starts at the head of the input. -/
def isSegAt (s : List Char) : Bool := playlistSeg.isPrefixOf s

/-- Locate the first `playlist/` segment and return the input after it. -/
def findSegment : List Char → Option (List Char)
  | [] => none
  | c :: rest =>
    if isSegAt (c :: rest) then some ((c :: rest).drop playlistSeg.length)
    else findSegment rest

/-- Whether the input contains a `playlist/` segment anywhere. -/
def hasSegment : List Char → Bool
  | [] => false
  | c :: rest => isSegAt (c :: rest) || hasSegment rest

/-- Modelled from the spec: the input-boundary URL parsing. The `main` of
src/app.py (lines 348-358) reads the text field verbatim as a playlist id
and the repository variant holding the URL form is not under src/, so this
follows the spec's words: locate the `playlist/<id>` path segment via
pattern match and take the identifier after it; absence of a match is an
input error producing no identifier. -/
def extract_playlist_id (input : List Char) : Option (List Char) :=
  match findSegment input with
  | none => none
  | some rest =>
    let tid := rest.takeWhile (fun c => c.isAlphanum)
    if tid.isEmpty then none else some tid

/-- Characters that force CSV quoting under standard minimal-quoting rules:
the delimiter, the quote character and line-break characters. -/
def specialChar (c : Char) : Bool :=
  decide (c = ',') || decide (c = '"') || decide (c = '\n') || decide (c = '\r')

/-- Whether a field must be quoted in the CSV output. -/
def needsQuote (s : List Char) : Bool := s.any specialChar

/-- Double every quote character of a field body. -/
def escapeQuotes : List Char → List Char
  | [] => []
  | c :: rest =>
    if c = '"' then '"' :: '"' :: escapeQuotes rest else c :: escapeQuotes rest

/-- Serialize one CSV field with standard minimal quoting. -/
def encodeField (s : List Char) : List Char :=
  if needsQuote s then '"' :: (escapeQuotes s ++ ['"']) else s

/-- Decimal digits of a natural number, as `str` prints it. -/
def natChars (n : Nat) : List Char :=
  if n = 0 then ['0'] else ((Nat.digits 10 n).map Nat.digitChar).reverse

/-- Serialize one table row as a CSV line. -/
def encodeRow (r : TrackRecord) : List Char :=
  encodeField r.name.toList ++ ',' :: encodeField r.artist.toList ++ ','
    :: encodeField r.album.toList ++ ',' :: encodeField r.id.toList ++ ','
    :: natChars r.popularity ++ ['\n']

/-- Header line of the exported CSV. -/
def csvHeader : List Char := "name,artist,album,id,popularity\n".toList

/-- Embedding of `df.to_csv(index=False)` (src/app.py line 381): header line
then one line per row. The empty table's DataFrame carries no columns, so
its CSV is the single newline of an empty header line. -/
def to_csv (table : List TrackRecord) : List Char :=
  match table with
  | [] => ['\n']
  | _ => csvHeader ++ (table.map encodeRow).flatten

/-- Numeric value of a decimal digit character. -/
def charVal (c : Char) : Nat := c.toNat - 48

/-- Parse a nonempty all-digit field as a decimal natural number. -/
def charsToNat (s : List Char) : Option Nat :=
  if ¬(s = []) ∧ s.all (fun c => c.isDigit) then
    some (Nat.ofDigits 10 ((s.map charVal).reverse))
  else none

/-- Parse the body of a quoted CSV field after its opening quote: a doubled
quote stands for one quote character, a lone quote closes the field. -/
def parseQuoted : List Char → Option (List Char × List Char)
  | [] => none
  | c :: rest =>
    if c = '"' then
      match rest with
      | [] => some ([], [])
      | d :: rest2 =>
        if d = '"' then (parseQuoted rest2).map (fun p => ('"' :: p.1, p.2))
        else some ([], d :: rest2)
    else (parseQuoted rest).map (fun p => (c :: p.1, p.2))

/-- Parse an unquoted CSV field: everything up to the next delimiter or line
break. -/
def parseUnquoted : List Char → List Char × List Char
  | [] => ([], [])
  | c :: rest =>
    if c = ',' ∨ c = '\n' then ([], c :: rest)
    else (c :: (parseUnquoted rest).1, (parseUnquoted rest).2)

/-- Parse one CSV field, quoted or not, returning it with the rest of the
input. -/
def parseField : List Char → Option (List Char × List Char)
  | [] => some ([], [])
  | c :: rest =>
    if c = '"' then parseQuoted rest else some (parseUnquoted (c :: rest))

/-- Require one specific character at the head of the input. -/
def expectChar (c : Char) : List Char → Option (List Char)
  | [] => none
  | d :: rest => if d = c then some rest else none

/-- Parse one CSV line of the five track columns, the last one numeric. -/
def parseRow (s : List Char) : Option (TrackRecord × List Char) :=
  match parseField s with
  | none => none
  | some p1 =>
  match expectChar ',' p1.2 with
  | none => none
  | some s1 =>
  match parseField s1 with
  | none => none
  | some p2 =>
  match expectChar ',' p2.2 with
  | none => none
  | some s2 =>
  match parseField s2 with
  | none => none
  | some p3 =>
  match expectChar ',' p3.2 with
  | none => none
  | some s3 =>
  match parseField s3 with
  | none => none
  | some p4 =>
  match expectChar ',' p4.2 with
  | none => none
  | some s4 =>
  match parseField s4 with
  | none => none
  | some p5 =>
  match expectChar '\n' p5.2 with
  | none => none
  | some s5 =>
  match charsToNat p5.1 with
  | none => none
  | some pop =>
    some (⟨p1.1.asString, p2.1.asString, p3.1.asString, p4.1.asString, pop⟩, s5)

/-- Parse CSV lines until the input is exhausted; the fuel bounds the number
of lines by the input length. -/
def parseRowsAux : Nat → List Char → Option (List TrackRecord)
  | _, [] => some []
  | 0, _ :: _ => none
  | fuel + 1, c :: rest =>
    match parseRow (c :: rest) with
    | none => none
    | some p =>
      match parseRowsAux fuel p.2 with
      | none => none
      | some rs => some (p.1 :: rs)

/-- Strip an expected leading character sequence from the input. -/
def dropHeader : List Char → List Char → Option (List Char)
  | [], s => some s
  | _ :: _, [] => none
  | h :: hs, c :: cs => if c = h then dropHeader hs cs else none

/-- Standard CSV parse of the exported file: require the exact header line,
then parse the rows. -/
def read_csv (s : List Char) : Option (List TrackRecord) :=
  match dropHeader csvHeader s with
  | none => none
  | some rest => parseRowsAux rest.length rest

/-- Claim-side record shape of the normalizer contract: track name, first
listed artist, album name, id, popularity defaulting to 0 when the upstream
field is absent. -/
def specRecord (t : RawTrack) : TrackRecord :=
  ⟨t.name.getD "", (t.artists.getD []).headD "", t.album.getD "",
   t.id.getD "", t.popularity.getD 0⟩

/-- An item is well formed when its track, if present, has every required
sub-field, so record extraction succeeds. -/
def wellFormedItem (item : RawTrackItem) : Bool :=
  match item.track with
  | none => true
  | some t => (recordOf t).isSome

/-- An item is structurally malformed when its track is present but a
required sub-field is missing, so record extraction fails. -/
def isMalformedItem (item : RawTrackItem) : Bool :=
  match item.track with
  | none => false
  | some t => (recordOf t).isNone

/-- A playlist item whose track is JSON null. -/
def nullItem : RawTrackItem := ⟨none⟩

/-- Upstream serving two full pages of 100 items and a final partial page of
17 items. -/
def pages217 : List TracksPage :=
  [⟨List.replicate 100 nullItem, true⟩, ⟨List.replicate 100 nullItem, true⟩,
   ⟨List.replicate 17 nullItem, false⟩]

/-- A fully populated raw track. -/
def sampleTrack (nm ar al tid : String) (pop : Nat) : RawTrack :=
  ⟨some nm, some [ar], some al, some tid, some pop⟩

/-- A structurally malformed item: its track is present but its artist list
key is missing. -/
def badItem : RawTrackItem :=
  ⟨some ⟨some "Song", none, some "Alb", some "i0", some 5⟩⟩

/-- The three-row scenario table with artists A, B, A. -/
def tableABA : List TrackRecord :=
  [⟨"t1", "A", "al1", "i1", 10⟩, ⟨"t2", "B", "al2", "i2", 90⟩,
   ⟨"t3", "A", "al3", "i3", 50⟩]

/-- The example playlist URL of the spec. -/
def exUrl : List Char :=
  String.toList "https://open.spotify.com/playlist/0yrEw20VDQlagj59ckglN2?si=abc"

/-- The identifier inside the example playlist URL. -/
def exId : List Char := String.toList "0yrEw20VDQlagj59ckglN2"

/-- A bare playlist identifier, containing no `playlist/` segment. -/
def bareId : List Char := String.toList "37i9dQZF1DXcBWIGoYBM5M"

/-- A playlist item wrapping a fully populated track. -/
def goodItem : RawTrackItem :=
  ⟨some (sampleTrack "Track" "Artist" "Album" "id1" 42)⟩

/-- The row produced for `goodItem`. -/
def record0 : TrackRecord := ⟨"Track", "Artist", "Album", "id1", 42⟩

/-- A one-page upstream holding one real and one null track. -/
def pages0 : List TracksPage := [⟨[goodItem, nullItem], false⟩]

/-- Upstream playlist metadata matching `pages0`. -/
def playlist0 : PlaylistData := ⟨"P", "Owner", 2, none, []⟩

/-- The table normalized from `pages0`. -/
def table0 : List TrackRecord := [record0]

/-- A two-item input with one real and one null track. -/
def dupInput : List RawTrackItem := [goodItem, nullItem]

/-- A table exercising CSV quoting: delimiter, quote and line break inside
fields, and an empty field. -/
def table9 : List TrackRecord :=
  [⟨"a,b", "c\"d", "e\nf", "id9", 37⟩, ⟨"", "g", "h", "id10", 0⟩]

/-- A cursor-consistent page list is fetched whole: the loop concatenates
exactly the items of every page in order. -/
theorem fetchLoop_eq_flatten :
    ∀ pages : List TracksPage, CursorConsistent pages →
      fetchLoop pages = (pages.map TracksPage.items).flatten
  | [], _ => by simp [fetchLoop]
  | [p], h => by
    have hp : p.next = false := h
    simp [fetchLoop, hp]
  | p :: q :: rest, h => by
    have hp : p.next = true := h.1
    have htail := fetchLoop_eq_flatten (q :: rest) h.2
    rw [show fetchLoop (p :: q :: rest)
        = p.items ++ (if p.next then fetchLoop (q :: rest) else []) from rfl,
      htail, hp]
    simp

/-- Claim C3: for every playlist upstream, the fetcher issues the first page
request and follows the pagination cursor until no further page is
indicated, concatenating all page items in arrival order. -/
theorem fetcher_follows_cursor (pages : List TracksPage)
    (h : CursorConsistent pages) :
    get_playlist_tracks pages = (pages.map TracksPage.items).flatten :=
  fetchLoop_eq_flatten pages h

/-- Witness for C3: an upstream of two pages of 100 items each plus a final
partial page of 17 yields exactly 217 raw items. -/
theorem fetcher_follows_cursor_witness :
    CursorConsistent pages217 ∧ (get_playlist_tracks pages217).length = 217 := by
  have h : CursorConsistent pages217 := by decide
  refine ⟨h, ?_⟩
  rw [fetcher_follows_cursor pages217 h]
  simp only [pages217, List.map_cons, List.map_nil, List.flatten_cons,
    List.flatten_nil, List.length_append, List.length_replicate,
    List.length_nil, List.append_nil]

/-- Normalization only drops rows: a successful conversion never yields more
rows than input items. -/
theorem prepare_length_le :
    ∀ (items : List RawTrackItem) (out : List TrackRecord),
      prepare_track_dataframe items = Except.ok out → out.length ≤ items.length
  | [], out, h => by
    simp only [prepare_track_dataframe, Except.ok.injEq] at h
    subst h
    simp
  | item :: rest, out, h => by
    simp only [prepare_track_dataframe] at h
    split at h
    · exact absurd h (by simp)
    · exact Nat.le_succ_of_le (prepare_length_le rest out h)
    · split at h
      · exact absurd h (by simp)
      · rename_i rs hrest
        simp only [Except.ok.injEq] at h
        subst h
        have := prepare_length_le rest rs hrest
        simp only [List.length_cons]
        omega

/-- Normalization distributes over concatenation of successful inputs. -/
theorem prepare_append :
    ∀ (ts1 ts2 : List RawTrackItem) (o1 o2 : List TrackRecord),
      prepare_track_dataframe ts1 = Except.ok o1 →
      prepare_track_dataframe ts2 = Except.ok o2 →
      prepare_track_dataframe (ts1 ++ ts2) = Except.ok (o1 ++ o2)
  | [], _, o1, o2, h1, h2 => by
    simp only [prepare_track_dataframe, Except.ok.injEq] at h1
    subst h1
    simpa using h2
  | item :: rest, ts2, o1, o2, h1, h2 => by
    simp only [prepare_track_dataframe, List.cons_append] at h1 ⊢
    split at h1
    · exact absurd h1 (by simp)
    · exact prepare_append rest ts2 o1 o2 h1 h2
    · split at h1
      · exact absurd h1 (by simp)
      · rename_i rs hrest
        simp only [Except.ok.injEq] at h1
        subst h1
        rw [show prepare_track_dataframe (rest.append ts2) =
            Except.ok (rs ++ o2) from prepare_append rest ts2 rs o2 hrest h2]
        simp

/-- A record successfully extracted from a raw track has the shape of the
normalizer contract. -/
theorem recordOf_eq_specRecord (t : RawTrack) (r : TrackRecord)
    (h : recordOf t = some r) : r = specRecord t := by
  obtain ⟨nm, ar, al, tid, pop⟩ := t
  cases nm with
  | none => simp [recordOf] at h
  | some nm =>
    cases ar with
    | none => simp [recordOf] at h
    | some l =>
      cases l with
      | nil => simp [recordOf] at h
      | cons a as =>
        cases al with
        | none => simp [recordOf] at h
        | some al =>
          cases tid with
          | none => simp [recordOf] at h
          | some tid =>
            simp only [recordOf, Option.some.injEq] at h
            subst h
            simp [specRecord]

/-- Claim C4: normalization skips null tracks and emits, for each present
track, a record built from the first listed artist and the popularity field
defaulting to 0. -/
theorem normalize_policy :
    ∀ (tracks : List RawTrackItem),
      (∀ item ∈ tracks, wellFormedItem item = true) →
      prepare_track_dataframe tracks =
        Except.ok ((tracks.filterMap RawTrackItem.track).map specRecord)
  | [], _ => by simp [prepare_track_dataframe]
  | item :: rest, h => by
    have hrest := normalize_policy rest (fun i hi => h i (List.mem_cons_of_mem _ hi))
    have hitem := h item (List.mem_cons_self _ _)
    obtain ⟨tr⟩ := item
    cases tr with
    | none => simp [prepare_track_dataframe, normalizeItem, hrest]
    | some t =>
      have hw : (recordOf t).isSome = true := by
        simpa [wellFormedItem] using hitem
      obtain ⟨r, hr⟩ := Option.isSome_iff_exists.mp hw
      have hspec := recordOf_eq_specRecord t r hr
      simp [prepare_track_dataframe, normalizeItem, hr, hrest, hspec]

/-- Witness for C4: a null item is skipped and a populated item yields its
contract record. -/
theorem normalize_policy_witness :
    (∀ item ∈ [nullItem, goodItem], wellFormedItem item = true) ∧
    prepare_track_dataframe [nullItem, goodItem] =
      Except.ok (([nullItem, goodItem].filterMap RawTrackItem.track).map
        specRecord) := by
  have h : ∀ item ∈ [nullItem, goodItem], wellFormedItem item = true := by decide
  exact ⟨h, normalize_policy [nullItem, goodItem] h⟩

/-- Claim C5: normalized output preserves input order and performs no
deduplication, so concatenated (in particular duplicated) inputs produce the
concatenated row lists. -/
theorem normalize_order_and_duplicates (ts1 ts2 : List RawTrackItem)
    (o1 o2 : List TrackRecord)
    (h1 : prepare_track_dataframe ts1 = Except.ok o1)
    (h2 : prepare_track_dataframe ts2 = Except.ok o2) :
    prepare_track_dataframe (ts1 ++ ts2) = Except.ok (o1 ++ o2) :=
  prepare_append ts1 ts2 o1 o2 h1 h2

/-- Witness for C5: duplicating an input duplicates its output rows in
order. -/
theorem normalize_order_and_duplicates_witness :
    prepare_track_dataframe dupInput = Except.ok table0 ∧
    prepare_track_dataframe (dupInput ++ dupInput) =
      Except.ok (table0 ++ table0) := by
  have h : prepare_track_dataframe dupInput = Except.ok table0 := rfl
  exact ⟨h, normalize_order_and_duplicates dupInput dupInput table0 table0 h h⟩

/-- A structurally malformed item makes the one-item conversion raise. -/
theorem normalizeItem_malformed (item : RawTrackItem)
    (h : isMalformedItem item = true) :
    normalizeItem item = Except.error () := by
  obtain ⟨tr⟩ := item
  cases tr with
  | none => simp [isMalformedItem] at h
  | some t =>
    simp only [isMalformedItem, Option.isNone_iff_eq_none] at h
    simp [normalizeItem, h]

/-- Counterexample to claim C2: an item whose track is present but whose
artist-list key is missing makes normalization raise instead of being
skipped. -/
theorem malformed_item_raises_counterexample :
    prepare_track_dataframe [badItem] = Except.error () := rfl

/-- Claim C2 (amended): normalization skips only null tracks; an input
containing a structurally malformed item (track present but a required
sub-field missing) makes normalization raise an error, aborting the table
construction. -/
theorem malformed_item_aborts :
    ∀ (tracks : List RawTrackItem),
      (∃ item ∈ tracks, isMalformedItem item = true) →
      prepare_track_dataframe tracks = Except.error ()
  | [], h => by simp at h
  | item :: rest, h => by
    simp only [prepare_track_dataframe]
    by_cases hbad : isMalformedItem item = true
    · rw [normalizeItem_malformed item hbad]
    · obtain ⟨i, hi, him⟩ := h
      rcases List.mem_cons.mp hi with rfl | hi2
      · exact absurd him hbad
      · have hrest := malformed_item_aborts rest ⟨i, hi2, him⟩
        rw [hrest]
        cases hni : normalizeItem item with
        | error e => cases e; rfl
        | ok r => cases r <;> rfl

/-- Witness for the amended C2: a list holding the malformed item aborts. -/
theorem malformed_item_aborts_witness :
    (∃ item ∈ [nullItem, badItem], isMalformedItem item = true) ∧
    prepare_track_dataframe [nullItem, badItem] = Except.error () := by
  have h : ∃ item ∈ [nullItem, badItem], isMalformedItem item = true := by decide
  exact ⟨h, malformed_item_aborts [nullItem, badItem] h⟩

/-- Counterexample to claim C1: on the empty table the popularity statistics
produce no result at all, rather than an explicit no-data value. -/
theorem empty_aggregate_counterexample :
    (display_metrics_popularity []).isOk = false := rfl

/-- Claim C1 (amended): on the empty TrackTable the popularity aggregation
raises an error — the empty DataFrame has no popularity column — instead of
returning a no-data result or a numeric default. -/
theorem empty_aggregate_raises :
    display_metrics_popularity [] = Except.error () := rfl

/-- Claim C10: an input whose tracks are all null (and the empty input)
normalizes to a table without column structure, so reading its popularity
column is an error rather than an empty column. -/
theorem all_null_no_column :
    ∀ (tracks : List RawTrackItem), (∀ item ∈ tracks, item.track = none) →
      prepare_track_dataframe tracks = Except.ok [] ∧
      (prepare_track_dataframe tracks).bind popularityColumn =
        Except.error ()
  | [], _ => ⟨rfl, rfl⟩
  | item :: rest, h => by
    have hitem : item.track = none := h item (List.mem_cons_self _ _)
    have hrest :=
      (all_null_no_column rest (fun i hi => h i (List.mem_cons_of_mem _ hi))).1
    have h1 : prepare_track_dataframe (item :: rest) = Except.ok [] := by
      simp [prepare_track_dataframe, normalizeItem, hitem, hrest]
    exact ⟨h1, by rw [h1]; rfl⟩

/-- Witness for C10: two null items yield the empty, column-less table. -/
theorem all_null_no_column_witness :
    (∀ item ∈ [nullItem, nullItem], item.track = none) ∧
    prepare_track_dataframe [nullItem, nullItem] = Except.ok [] ∧
    (prepare_track_dataframe [nullItem, nullItem]).bind popularityColumn =
      Except.error () := by
  have h : ∀ item ∈ [nullItem, nullItem], item.track = none := by decide
  exact ⟨h, all_null_no_column [nullItem, nullItem] h⟩

/-- Claim C7: for a valid playlist, the normalized table never has more rows
than the summary's reported track total. -/
theorem table_within_total (p : PlaylistData) (pages : List TracksPage)
    (table : List TrackRecord) (hv : ValidPlaylist p pages)
    (ht : prepare_track_dataframe (get_playlist_tracks pages) =
      Except.ok table) :
    table.length ≤ (get_playlist_info p).total_tracks := by
  obtain ⟨hc, htot⟩ := hv
  have h1 := prepare_length_le _ _ ht
  rw [show get_playlist_tracks pages = (pages.map TracksPage.items).flatten
    from fetchLoop_eq_flatten pages hc] at h1
  simpa [get_playlist_info, htot] using h1

/-- Witness for C7: a two-entry playlist with one null track yields one row,
at most its reported total of 2. -/
theorem table_within_total_witness :
    ValidPlaylist playlist0 pages0 ∧
    prepare_track_dataframe (get_playlist_tracks pages0) =
      Except.ok table0 ∧
    table0.length ≤ (get_playlist_info playlist0).total_tracks := by
  have hv : ValidPlaylist playlist0 pages0 := ⟨by decide, by decide⟩
  have ht : prepare_track_dataframe (get_playlist_tracks pages0) =
      Except.ok table0 := rfl
  exact ⟨hv, ht, table_within_total playlist0 pages0 table0 hv ht⟩

/-- Insertion grows the sorted count list by one. -/
theorem length_insertByCount (x : String × Nat) :
    ∀ l : List (String × Nat), (insertByCount x l).length = l.length + 1
  | [] => rfl
  | y :: ys => by
    simp only [insertByCount]
    split
    · simp
    · simp [length_insertByCount x ys]

/-- Sorting the count list preserves its length. -/
theorem length_sortCountsDesc :
    ∀ l : List (String × Nat), (sortCountsDesc l).length = l.length
  | [] => rfl
  | x :: xs => by
    have ih := length_sortCountsDesc xs
    simp only [sortCountsDesc, List.foldr_cons] at ih ⊢
    rw [length_insertByCount, ih]
    simp

/-- Members after insertion are the inserted pair or old members. -/
theorem mem_insertByCount {z x : String × Nat} :
    ∀ {l : List (String × Nat)}, z ∈ insertByCount x l → z = x ∨ z ∈ l
  | [], h => by simpa [insertByCount] using h
  | y :: ys, h => by
    simp only [insertByCount] at h
    split at h
    · rcases List.mem_cons.mp h with rfl | h2
      · exact Or.inl rfl
      · exact Or.inr h2
    · rcases List.mem_cons.mp h with rfl | h2
      · exact Or.inr (List.mem_cons_self _ _)
      · rcases mem_insertByCount h2 with rfl | h3
        · exact Or.inl rfl
        · exact Or.inr (List.mem_cons_of_mem _ h3)

/-- Insertion keeps the count list sorted descending by count. -/
theorem pairwise_insertByCount (x : String × Nat) :
    ∀ l : List (String × Nat),
      l.Pairwise (fun p q => q.2 ≤ p.2) →
      (insertByCount x l).Pairwise (fun p q => q.2 ≤ p.2)
  | [], _ => by simp [insertByCount]
  | y :: ys, h => by
    simp only [insertByCount]
    split
    · rename_i hle
      refine List.Pairwise.cons ?_ h
      intro z hz
      rcases List.mem_cons.mp hz with rfl | hz2
      · exact hle
      · exact le_trans ((List.pairwise_cons.mp h).1 z hz2) hle
    · rename_i hgt
      obtain ⟨hy, hys⟩ := List.pairwise_cons.mp h
      refine List.Pairwise.cons ?_ (pairwise_insertByCount x ys hys)
      intro z hz
      rcases mem_insertByCount hz with rfl | hz2
      · exact Nat.le_of_lt (Nat.lt_of_not_le hgt)
      · exact hy z hz2

/-- The sorted count list is descending by count. -/
theorem pairwise_sortCountsDesc :
    ∀ l : List (String × Nat),
      (sortCountsDesc l).Pairwise (fun p q => q.2 ≤ p.2)
  | [] => by simp [sortCountsDesc]
  | x :: xs => by
    have ih := pairwise_sortCountsDesc xs
    simp only [sortCountsDesc, List.foldr_cons] at ih ⊢
    exact pairwise_insertByCount x _ ih

/-- Insertion adds the inserted count to the count sum. -/
theorem sum_insertByCount (x : String × Nat) :
    ∀ l : List (String × Nat),
      ((insertByCount x l).map Prod.snd).sum = x.2 + (l.map Prod.snd).sum
  | [] => by simp [insertByCount]
  | y :: ys => by
    simp only [insertByCount]
    split
    · simp
    · simp [sum_insertByCount x ys]
      omega

/-- Sorting preserves the count sum. -/
theorem sum_sortCountsDesc :
    ∀ l : List (String × Nat),
      ((sortCountsDesc l).map Prod.snd).sum = (l.map Prod.snd).sum
  | [] => rfl
  | x :: xs => by
    have ih := sum_sortCountsDesc xs
    simp only [sortCountsDesc, List.foldr_cons] at ih ⊢
    rw [sum_insertByCount]
    simp [ih]

/-- The accumulator deduplication agrees with the filtering recursion, on
the input cleansed of the already-seen values. -/
theorem dedupFirstAux_eq :
    ∀ (l seen : List String),
      dedupFirstAux seen l =
        dedupFirstRec (l.filter (fun b => decide ¬(b ∈ seen)))
  | [], seen => by simp [dedupFirstAux, dedupFirstRec]
  | a :: rest, seen => by
    by_cases ha : a ∈ seen
    · rw [show dedupFirstAux seen (a :: rest) = dedupFirstAux seen rest from by
        simp [dedupFirstAux, ha]]
      rw [List.filter_cons_of_neg (by simpa using ha)]
      exact dedupFirstAux_eq rest seen
    · rw [show dedupFirstAux seen (a :: rest)
          = a :: dedupFirstAux (a :: seen) rest from by simp [dedupFirstAux, ha]]
      rw [List.filter_cons_of_pos (by simpa using ha)]
      rw [dedupFirstRec]
      congr 1
      rw [dedupFirstAux_eq rest (a :: seen), List.filter_filter]
      apply congrArg
      apply List.filter_congr
      intro b _
      by_cases hb1 : b = a <;> by_cases hb2 : b ∈ seen <;>
        simp [hb1, hb2]

/-- First-appearance deduplication equals its filtering recursion. -/
theorem dedupFirst_eq_rec (l : List String) : dedupFirst l = dedupFirstRec l := by
  have h := dedupFirstAux_eq l []
  simpa [dedupFirst] using h

/-- Every deduplicated value occurs in the original column. -/
theorem mem_dedupFirstRec_sub :
    ∀ (l : List String) (x : String), x ∈ dedupFirstRec l → x ∈ l
  | [], x, h => by simp [dedupFirstRec] at h
  | a :: rest, x, h => by
    rw [dedupFirstRec] at h
    rcases List.mem_cons.mp h with rfl | h2
    · exact List.mem_cons_self _ _
    · have hf := mem_dedupFirstRec_sub _ x h2
      exact List.mem_cons_of_mem _ (List.mem_filter.mp hf).1
termination_by l => l.length
decreasing_by
  simp only [List.length_cons]
  exact Nat.lt_succ_of_le (List.length_filter_le _ _)

/-- Occurrence count over a cons cell. -/
theorem countArtist_cons (x : String) (col : List String) (a : String) :
    countArtist (x :: col) a = (if x = a then 1 else 0) + countArtist col a := by
  by_cases hx : x = a
  · subst hx
    simp [countArtist, List.filter_cons]
    omega
  · simp [countArtist, List.filter_cons, hx]

/-- Filtering out a different value does not change an occurrence count. -/
theorem countArtist_filter_ne :
    ∀ (rest : List String) (a b : String), ¬ b = a →
      countArtist (rest.filter (fun c => decide ¬(c = a))) b = countArtist rest b
  | [], _, _, _ => rfl
  | x :: rest, a, b, hab => by
    by_cases hx : x = a
    · subst hx
      rw [List.filter_cons_of_neg (by simp)]
      rw [countArtist_filter_ne rest x b hab, countArtist_cons,
        if_neg (fun hxb => hab hxb.symm)]
      omega
    · rw [List.filter_cons_of_pos (by simpa using hx)]
      rw [countArtist_cons, countArtist_cons,
        countArtist_filter_ne rest a b hab]

/-- A column splits into the occurrences of one value and the rest. -/
theorem length_filter_split :
    ∀ (rest : List String) (a : String),
      rest.length = countArtist rest a +
        (rest.filter (fun c => decide ¬(c = a))).length
  | [], _ => rfl
  | x :: rest, a => by
    have ih := length_filter_split rest a
    by_cases hx : x = a
    · subst hx
      rw [List.filter_cons_of_neg (by simp), countArtist_cons, if_pos rfl]
      simp only [List.length_cons]
      omega
    · rw [List.filter_cons_of_pos (by simpa using hx), countArtist_cons,
        if_neg hx]
      simp only [List.length_cons]
      omega

/-- Grouping: the per-value occurrence counts of a column sum to its
length. -/
theorem dedup_counts_sum :
    ∀ col : List String,
      ((dedupFirstRec col).map (fun a => countArtist col a)).sum = col.length
  | [] => by simp [dedupFirstRec]
  | a :: rest => by
    have hrec := dedup_counts_sum (rest.filter (fun c => decide ¬(c = a)))
    rw [dedupFirstRec]
    simp only [List.map_cons, List.sum_cons]
    have hmap : (dedupFirstRec (rest.filter (fun c => decide ¬(c = a)))).map
        (fun b => countArtist (a :: rest) b) =
        (dedupFirstRec (rest.filter (fun c => decide ¬(c = a)))).map
        (fun b => countArtist (rest.filter (fun c => decide ¬(c = a))) b) := by
      apply List.map_congr_left
      intro b hb
      have hbf := mem_dedupFirstRec_sub _ b hb
      have hbne : ¬ b = a := by
        have := (List.mem_filter.mp hbf).2
        simpa using this
      rw [countArtist_cons, if_neg (fun h => hbne h.symm),
        countArtist_filter_ne rest a b hbne]
      omega
    rw [hmap, hrec, countArtist_cons, if_pos rfl]
    have hsplit := length_filter_split rest a
    simp only [List.length_cons]
    omega
termination_by col => col.length
decreasing_by
  simp only [List.length_cons]
  exact Nat.lt_succ_of_le (List.length_filter_le _ _)

/-- Counterexample to claim C6 as stated: with three rows over two artists,
`top_artists(table, 1)` keeps only one artist's count, so the counts sum to
2, not to the table length 3. -/
theorem top_artists_sum_counterexample :
    ¬ ((top_artists tableABA 1).map Prod.snd).sum = tableABA.length := by
  decide

/-- Claim C6 (amended): `top_artists(table, n)` counts occurrences per exact
artist name, is ordered descending by count, has length at most `n` and at
most the distinct artist count, and its counts sum to `len(table)` provided
`n` covers every distinct artist (truncation drops the omitted counts). -/
theorem top_artists_spec (table : List TrackRecord) (n : Nat) :
    (top_artists table n).length ≤ n ∧
    (top_artists table n).length ≤ distinct_artist_count table ∧
    (top_artists table n).Pairwise (fun p q => q.2 ≤ p.2) ∧
    (distinct_artist_count table ≤ n →
      ((top_artists table n).map Prod.snd).sum = table.length) := by
  have hlen : (value_counts (artistColumn table)).length =
      distinct_artist_count table := by
    simp [value_counts, length_sortCountsDesc, distinct_artist_count]
  refine ⟨?_, ?_, ?_, ?_⟩
  · simp only [top_artists, List.length_take]
    exact min_le_left _ _
  · simp only [top_artists, List.length_take, ← hlen]
    exact min_le_right _ _
  · exact List.Pairwise.sublist (List.take_sublist n _)
      (pairwise_sortCountsDesc _)
  · intro hn
    have heq : top_artists table n = value_counts (artistColumn table) := by
      apply List.take_of_length_le
      rw [hlen]
      exact hn
    rw [heq, value_counts, sum_sortCountsDesc, List.map_map,
      dedupFirst_eq_rec]
    have := dedup_counts_sum (artistColumn table)
    simpa [artistColumn, Function.comp] using this

/-- Witness for C6: the three-row scenario with `n = 2` covers both artists,
so the bounds hold and the counts sum to 3. -/
theorem top_artists_spec_witness :
    (top_artists tableABA 2).length ≤ 2 ∧
    (top_artists tableABA 2).length ≤ distinct_artist_count tableABA ∧
    (top_artists tableABA 2).Pairwise (fun p q => q.2 ≤ p.2) ∧
    ((top_artists tableABA 2).map Prod.snd).sum = tableABA.length := by
  obtain ⟨h1, h2, h3, h4⟩ := top_artists_spec tableABA 2
  exact ⟨h1, h2, h3, h4 (by decide)⟩

/-- An input with no `playlist/` segment has no segment to find. -/
theorem findSegment_none :
    ∀ input : List Char, hasSegment input = false → findSegment input = none
  | [], _ => rfl
  | c :: rest, h => by
    simp only [hasSegment, Bool.or_eq_false_iff] at h
    simp only [findSegment, h.1, Bool.false_eq_true, if_false]
    exact findSegment_none rest h.2

/-- Claim C8: a URL containing a `playlist/<id>` segment yields the
identifier of that segment (the spec's example extracts its 22-character
id), and an input with no `playlist/` segment produces no identifier. -/
theorem url_extraction (input : List Char) (h : hasSegment input = false) :
    extract_playlist_id exUrl = some exId ∧
    extract_playlist_id input = none := by
  constructor
  · decide
  · simp [extract_playlist_id, findSegment_none input h]

/-- Witness for C8: a bare playlist identifier has no `playlist/` segment
and yields no extracted identifier. -/
theorem url_extraction_witness :
    hasSegment bareId = false ∧ extract_playlist_id bareId = none := by
  have h : hasSegment bareId = false := by decide
  exact ⟨h, (url_extraction bareId h).2⟩

/-- Rebuilding a string from its character list is the identity. -/
theorem asString_toList (s : String) : s.toList.asString = s := by
  cases s
  rfl

/-- Expecting the character that is present consumes it. -/
theorem expectChar_cons (c : Char) (t : List Char) :
    expectChar c (c :: t) = some t := by
  simp [expectChar]

/-- An unquoted parse stops exactly at the delimiter following a field free
of special characters. -/
theorem parseUnquoted_append (f : List Char)
    (hf : ∀ c ∈ f, specialChar c = false)
    (d : Char) (hd : d = ',' ∨ d = '\n') (t : List Char) :
    parseUnquoted (f ++ d :: t) = (f, d :: t) := by
  induction f with
  | nil =>
    simp only [List.nil_append, parseUnquoted]
    rw [if_pos hd]
  | cons c f2 ih =>
    have hc := hf c (List.mem_cons_self _ _)
    have hcomma : ¬(c = ',' ∨ c = '\n') := by
      simp only [specialChar, Bool.or_eq_false_iff, decide_eq_false_iff_not]
        at hc
      tauto
    simp only [List.cons_append, parseUnquoted, List.append_eq]
    rw [if_neg hcomma, ih (fun x hx => hf x (List.mem_cons_of_mem _ hx))]

/-- A quoted parse undoes quote escaping and stops at the closing quote
when a delimiter follows it. -/
theorem parseQuoted_append (f : List Char) (d : Char)
    (hd : d = ',' ∨ d = '\n') (t : List Char) :
    parseQuoted (escapeQuotes f ++ '"' :: d :: t) = some (f, d :: t) := by
  have hdq : ¬ d = '"' := by rcases hd with rfl | rfl <;> decide
  induction f with
  | nil =>
    simp only [escapeQuotes, List.nil_append, parseQuoted, if_true]
    simp [hdq]
  | cons c f2 ih =>
    by_cases hc : c = '"'
    · subst hc
      rw [show escapeQuotes ('"' :: f2) = '"' :: '"' :: escapeQuotes f2 from by
        simp [escapeQuotes]]
      simp only [List.cons_append, parseQuoted, if_true, List.append_eq]
      rw [ih]
      rfl
    · rw [show escapeQuotes (c :: f2) = c :: escapeQuotes f2 from by
        simp [escapeQuotes, hc]]
      cases hE : escapeQuotes f2 with
      | nil =>
        have hf2 : f2 = [] := by
          cases f2 with
          | nil => rfl
          | cons e es =>
            by_cases he : e = '"' <;> simp [escapeQuotes, he] at hE
        subst hf2
        simp [parseQuoted, escapeQuotes, hc, hdq]
      | cons e es =>
        rw [hE, List.cons_append] at ih
        simp only [List.cons_append, parseQuoted]
        rw [if_neg hc]
        simp only [List.append_eq, List.cons_append]
        rw [ih]
        rfl

/-- Field round trip: parsing right after encoding returns the original
field and stops at the following delimiter. -/
theorem parseField_encode (f : List Char) (d : Char)
    (hd : d = ',' ∨ d = '\n') (t : List Char) :
    parseField (encodeField f ++ d :: t) = some (f, d :: t) := by
  have hdq : ¬ d = '"' := by rcases hd with rfl | rfl <;> decide
  by_cases hq : needsQuote f = true
  · rw [show encodeField f ++ d :: t
        = '"' :: (escapeQuotes f ++ '"' :: d :: t) from by
      simp [encodeField, hq]]
    simp only [parseField, if_true, List.append_eq]
    exact parseQuoted_append f d hd t
  · have hqf : needsQuote f = false := by
      cases hv : needsQuote f
      · rfl
      · exact absurd hv hq
    have hf : ∀ c ∈ f, specialChar c = false := by
      intro c hc
      cases hv : specialChar c
      · rfl
      · exact absurd (by
          simp only [needsQuote, List.any_eq_true]
          exact ⟨c, hc, hv⟩) hq
    rw [show encodeField f = f from by simp [encodeField, hqf]]
    cases f with
    | nil =>
      simp only [List.nil_append, parseField]
      rw [if_neg hdq]
      simp only [parseUnquoted]
      rw [if_pos hd]
    | cons c f2 =>
      have hc : specialChar c = false := hf c (List.mem_cons_self _ _)
      have hcq : ¬ c = '"' := by
        simp only [specialChar, Bool.or_eq_false_iff,
          decide_eq_false_iff_not] at hc
        tauto
      simp only [List.cons_append, parseField]
      rw [if_neg hcq, ← List.cons_append,
        parseUnquoted_append (c :: f2) hf d hd t]

/-- Every character printed for a natural number is a decimal digit. -/
theorem natChars_digits (n : Nat) : ∀ c ∈ natChars n, c.isDigit = true := by
  intro c hc
  by_cases hn : n = 0
  · subst hn
    simp [natChars] at hc
    subst hc
    decide
  · simp only [natChars, if_neg hn, List.mem_reverse] at hc
    obtain ⟨d, hd, rfl⟩ := List.mem_map.mp hc
    have hd10 : d < 10 := Nat.digits_lt_base (by norm_num) hd
    interval_cases d <;> decide

/-- The printed digits of a natural number are never empty. -/
theorem natChars_ne_nil (n : Nat) : ¬ natChars n = [] := by
  by_cases hn : n = 0
  · subst hn
    simp [natChars]
  · simp only [natChars, if_neg hn, List.reverse_eq_nil_iff,
      List.map_eq_nil_iff]
    exact Nat.digits_ne_nil_iff_ne_zero.mpr hn

/-- A decimal digit character is not a CSV special character. -/
theorem digit_not_special (c : Char) (h : c.isDigit = true) :
    specialChar c = false := by
  cases hv : specialChar c
  · rfl
  · simp only [specialChar, Bool.or_eq_true, decide_eq_true_eq] at hv
    rcases hv with ((rfl | rfl) | rfl) | rfl <;> exact absurd h (by decide)

/-- Digit value and digit character are inverse below the base. -/
theorem charVal_digitChar (d : Nat) (hd : d < 10) :
    charVal (Nat.digitChar d) = d := by
  interval_cases d <;> decide

/-- Printing then parsing a natural number is the identity. -/
theorem charsToNat_natChars (n : Nat) : charsToNat (natChars n) = some n := by
  by_cases hn : n = 0
  · subst hn
    decide
  · have hne := natChars_ne_nil n
    have hdig : (natChars n).all (fun c => c.isDigit) = true := by
      rw [List.all_eq_true]
      exact natChars_digits n
    rw [charsToNat, if_pos ⟨hne, hdig⟩]
    congr 1
    rw [show natChars n = ((Nat.digits 10 n).map Nat.digitChar).reverse from by
      simp [natChars, hn]]
    rw [List.map_reverse, List.reverse_reverse, List.map_map]
    rw [show (Nat.digits 10 n).map (charVal ∘ Nat.digitChar)
        = Nat.digits 10 n from by
      have : ∀ d ∈ Nat.digits 10 n, (charVal ∘ Nat.digitChar) d = id d := by
        intro d hd
        exact charVal_digitChar d (Nat.digits_lt_base (by norm_num) hd)
      rw [List.map_congr_left this, List.map_id]]
    exact Nat.ofDigits_digits 10 n

/-- The digits of the popularity field parse as an unquoted field. -/
theorem parseField_natChars (n : Nat) (t : List Char) :
    parseField (natChars n ++ '\n' :: t) = some (natChars n, '\n' :: t) := by
  have hf : ∀ c ∈ natChars n, specialChar c = false := fun c hc =>
    digit_not_special c (natChars_digits n c hc)
  obtain ⟨c, cs, hcons⟩ : ∃ c cs, natChars n = c :: cs := by
    cases h : natChars n with
    | nil => exact absurd h (natChars_ne_nil n)
    | cons c cs => exact ⟨c, cs, rfl⟩
  have hcq : ¬ c = '"' := by
    have hd := natChars_digits n c (by rw [hcons]; exact List.mem_cons_self _ _)
    intro hc
    subst hc
    exact absurd hd (by decide)
  rw [hcons, List.cons_append]
  simp only [parseField]
  rw [if_neg hcq, ← List.cons_append, ← hcons,
    parseUnquoted_append (natChars n) hf '\n' (Or.inr rfl) t]

/-- Row round trip: parsing right after encoding a row returns the record
and the rest of the input. -/
theorem parseRow_encodeRow (r : TrackRecord) (rest : List Char) :
    parseRow (encodeRow r ++ rest) = some (r, rest) := by
  obtain ⟨nm, ar, al, tid, pop⟩ := r
  rw [show encodeRow ⟨nm, ar, al, tid, pop⟩ ++ rest
      = encodeField nm.toList ++ ',' :: (encodeField ar.toList ++ ','
        :: (encodeField al.toList ++ ',' :: (encodeField tid.toList ++ ','
        :: (natChars pop ++ '\n' :: rest)))) from by
    simp [encodeRow, List.append_assoc]]
  simp only [parseRow,
    parseField_encode nm.toList ',' (Or.inl rfl),
    parseField_encode ar.toList ',' (Or.inl rfl),
    parseField_encode al.toList ',' (Or.inl rfl),
    parseField_encode tid.toList ',' (Or.inl rfl),
    parseField_natChars pop,
    expectChar_cons, charsToNat_natChars, asString_toList]

/-- An encoded row is never empty. -/
theorem encodeRow_ne_nil (r : TrackRecord) : ¬ encodeRow r = [] := by
  simp [encodeRow, List.append_eq_nil]

/-- Rows round trip under sufficient fuel. -/
theorem parseRowsAux_encode :
    ∀ (table : List TrackRecord) (fuel : Nat),
      ((table.map encodeRow).flatten).length ≤ fuel →
      parseRowsAux fuel ((table.map encodeRow).flatten) = some table
  | [], fuel, _ => by cases fuel <;> rfl
  | r :: t, fuel, hle => by
    obtain ⟨c, cs, hcons⟩ : ∃ c cs, encodeRow r = c :: cs := by
      cases h : encodeRow r with
      | nil => exact absurd h (encodeRow_ne_nil r)
      | cons c cs => exact ⟨c, cs, rfl⟩
    simp only [List.map_cons, List.flatten_cons] at hle ⊢
    rw [hcons, List.cons_append] at hle ⊢
    cases fuel with
    | zero =>
      simp only [List.length_cons] at hle
      omega
    | succ fuel2 =>
      simp only [parseRowsAux]
      rw [← List.cons_append, ← hcons,
        parseRow_encodeRow r ((t.map encodeRow).flatten)]
      have hle2 : ((t.map encodeRow).flatten).length ≤ fuel2 := by
        simp only [List.length_cons, List.length_append] at hle
        omega
      show (match parseRowsAux fuel2 ((t.map encodeRow).flatten) with
        | none => none
        | some rs => some (r :: rs)) = some (r :: t)
      rw [parseRowsAux_encode t fuel2 hle2]

/-- Stripping a present leading sequence leaves the remainder. -/
theorem dropHeader_append : ∀ (h s : List Char), dropHeader h (h ++ s) = some s
  | [], _ => rfl
  | c :: h2, s => by
    simp only [List.cons_append, dropHeader, if_pos rfl]
    exact dropHeader_append h2 s

/-- Counterexample to claim C9: the empty table's CSV is a single newline
carrying no header row, and parsing it back fails instead of returning the
empty record list. -/
theorem csv_roundtrip_counterexample :
    to_csv ([] : List TrackRecord) = ['\n'] ∧
    read_csv (to_csv ([] : List TrackRecord)) = none := by
  constructor
  · rfl
  · decide

/-- Claim C9 (amended): for every nonempty TrackTable, exporting to CSV
(header row, one quoted-as-needed line per record) and parsing that CSV back
yields the original records field for field, in order. -/
theorem csv_roundtrip (table : List TrackRecord) (h : ¬ table = []) :
    read_csv (to_csv table) = some table := by
  cases table with
  | nil => exact absurd rfl h
  | cons r t =>
    rw [show to_csv (r :: t)
        = csvHeader ++ ((r :: t).map encodeRow).flatten from rfl]
    simp only [read_csv]
    rw [dropHeader_append]
    exact parseRowsAux_encode (r :: t) _ (Nat.le_refl _)

/-- Witness for C9: a table whose fields hold delimiters, quotes and line
breaks round trips through the CSV export. -/
theorem csv_roundtrip_witness :
    ¬ table9 = [] ∧ read_csv (to_csv table9) = some table9 :=
  ⟨by decide, csv_roundtrip table9 (by decide)⟩

end SpotifyAnalyzer
